import Mathlib

/-!
Verification of the rparsercom parser-combinator library (src/main.rs).

The Rust code works on string slices (`&str`).  We model a slice as the
list of its Unicode scalar values (`List Char`).  All byte-level slicing
performed by the Rust code (`match_literal`, `identifier`) happens on
character boundaries of valid UTF-8, so the character-level model agrees
with the byte-level code; the character classifiers
(`char::is_alphabetic`, `char::is_alphanumeric`, `char::is_whitespace`)
are modelled by Lean's classifiers, which agree with Rust on the ASCII
range exercised by the grammar and the tests.

The `one_or_more` / `zero_or_more` while-loops of the Rust code are not
structurally recursive; they are embedded by the fuel-indexed function
`loopRun`, where `loopRun p fuel i = some r` means the Rust loop exits
with result `r` within `fuel` iterations, and `none` means it is still
running after `fuel` iterations.  For a sub-parser that consumes at least
one character on each success the loop provably exits within
`input.length + 1` iterations, which is the fuel the library-level
definitions use.
-/

namespace RPC

/-- The parser input: a string slice, as its list of scalar values. -/
abbrev Input : Type := List Char

/-- Rust (main.rs:16):
`type ParseResult<'a, Output> = Result<(&'a str, Output), &'a str>`. -/
abbrev ParseResult (α : Type) : Type := Except Input (Input × α)

/-- Rust (main.rs:18): the `Parser` trait, implemented by any function
from input to `ParseResult`. -/
abbrev Parser (α : Type) : Type := Input → ParseResult α

/-- Rust `match_literal(expected)` (main.rs:38): succeeds iff the input
begins with `expected`, consuming exactly it and yielding unit; otherwise
fails returning the input untouched.  Rust compares the first
`expected.len()` bytes (`input.get(0..expected.len())`); on `List Char`
this is the comparison of the first `expected.length` characters. -/
def match_literal (expected : Input) : Parser Unit := fun input =>
  if input.take expected.length = expected then
    Except.ok (input.drop expected.length, ())
  else
    Except.error input

/-- The character class `identifier` consumes after its first character:
Rust `next.is_alphanumeric() || next == '-'` (main.rs:63). -/
def identChar (c : Char) : Bool := c.isAlphanum || c == '-'

/-- Rust `identifier` (main.rs:50): fails, returning the input unchanged,
unless the first character is alphabetic; otherwise consumes that
character and the following run of alphanumeric-or-hyphen characters,
yielding the consumed run.  Rust drops `matched.len()` bytes from the
input, i.e. the length of the matched run; here `c :: cs.takeWhile
identChar` has length `1 + (cs.takeWhile identChar).length`, so the
remainder is `cs.drop (cs.takeWhile identChar).length`. -/
def identifier : Parser Input := fun input =>
  match input with
  | [] => Except.error input
  | c :: cs =>
    if c.isAlpha then
      Except.ok (cs.drop (cs.takeWhile identChar).length, c :: cs.takeWhile identChar)
    else
      Except.error input

/-- Rust `pair(parser1, parser2)` (main.rs:78): runs `parser1`; on failure
propagates it; on success runs `parser2` on the remainder (`and_then` /
`map` in the Rust code, written out as matches here). -/
def pair (p1 : Parser α) (p2 : Parser β) : Parser (α × β) := fun input =>
  match p1 input with
  | Except.error e => Except.error e
  | Except.ok (next, r1) =>
    match p2 next with
    | Except.error e => Except.error e
    | Except.ok (last, r2) => Except.ok (last, (r1, r2))

/-- Rust `map(parser, map_fn)` (main.rs:95). -/
def map (p : Parser α) (f : α → β) : Parser β := fun input =>
  match p input with
  | Except.error e => Except.error e
  | Except.ok (next, r) => Except.ok (next, f r)

/-- Rust `left(parser1, parser2)` (main.rs:109). -/
def left (p1 : Parser α) (p2 : Parser β) : Parser α :=
  map (pair p1 p2) (fun x => x.1)

/-- Rust `right(parser1, parser2)` (main.rs:121). -/
def right (p1 : Parser α) (p2 : Parser β) : Parser β :=
  map (pair p1 p2) (fun x => x.2)

/-- Rust `any_char` (main.rs:180): consumes one character; fails only on
empty input. -/
def any_char : Parser Char := fun input =>
  match input with
  | [] => Except.error input
  | c :: rest => Except.ok (rest, c)

/-- Rust `pred(parser, predicate)` (main.rs:192): on success of the
sub-parser with an accepted value, that success; in every other case
`Err(input)`, the exact input `pred` was given. -/
def pred (p : Parser α) (f : α → Bool) : Parser α := fun input =>
  match p input with
  | Except.error _ => Except.error input
  | Except.ok (next, v) =>
    if f v then Except.ok (next, v) else Except.error input

/-- Fuel-indexed embedding of the accumulation while-loop shared by
`one_or_more` (main.rs:148) and `zero_or_more` (main.rs:167):
`while let Ok((next_input, next_item)) = parser.parse(input) ...`.
`some (rem, vs)` means the loop exits within the given number of
iterations, having accumulated `vs` and left `rem`; `none` means the loop
is still running after that many iterations (so `loopRun p fuel i = none`
for every `fuel` says the Rust loop never terminates). -/
def loopRun (p : Parser α) : Nat → Input → Option (Input × List α)
  | 0, _ => none
  | n + 1, input =>
    match p input with
    | Except.error _ => some (input, [])
    | Except.ok (next, v) =>
      match loopRun p n next with
      | none => none
      | some (rem, vs) => some (rem, v :: vs)

/-- Rust `zero_or_more(parser)` (main.rs:159): the accumulation loop,
always returning `Ok`.  A fuel of `input.length + 1` is exact whenever the
sub-parser consumes on every success (`loopRun_isSome_of_consuming`); the
`none` branch is where the Rust loop runs forever, and is unreachable for
such sub-parsers. -/
def zero_or_more (p : Parser α) : Parser (List α) := fun input =>
  match loopRun p (input.length + 1) input with
  | some (rem, vs) => Except.ok (rem, vs)
  | none => Except.error input

/-- Rust `one_or_more(parser)` (main.rs:130): a first application that
must succeed — on its failure the result is `Err(input)` with `input`
still the original input — followed by the accumulation loop on the
remainder.  As in `zero_or_more`, the `none` branch is where the Rust
loop runs forever. -/
def one_or_more (p : Parser α) : Parser (List α) := fun input =>
  match p input with
  | Except.error _ => Except.error input
  | Except.ok (next, first) =>
    match loopRun p (next.length + 1) next with
    | some (rem, rest) => Except.ok (rem, first :: rest)
    | none => Except.error input

/-- Rust `whitespace_char()` (main.rs:212). -/
def whitespace_char : Parser Char :=
  pred any_char (fun c => c.isWhitespace)

/-- Rust `one_or_more_space()` (main.rs:220). -/
def one_or_more_space : Parser (List Char) :=
  one_or_more whitespace_char

/-- Rust `zero_or_more_space()` (main.rs:225). -/
def zero_or_more_space : Parser (List Char) :=
  zero_or_more whitespace_char

/-- Rust `quoted_string()` (main.rs:233): an opening quote, the run of
non-quote characters, a closing quote.  The Rust `map` collects the
`Vec<char>` into a `String`; on `List Char` that collection is the
identity, kept as the final `map` for shape. -/
def quoted_string : Parser Input :=
  map
    (right (match_literal ['"'])
      (left (zero_or_more (pred any_char (fun c => !(c == '"'))))
        (match_literal ['"'])))
    (fun chars => chars)

/-- Rust `attribute_pair()` (main.rs:251). -/
def attribute_pair : Parser (Input × Input) :=
  pair identifier (right (match_literal ['=']) quoted_string)

/-- Rust `attributes()` (main.rs:257). -/
def attributes : Parser (List (Input × Input)) :=
  zero_or_more (right one_or_more_space attribute_pair)

/-- Rust `element_start()` (main.rs:264). -/
def element_start : Parser (Input × List (Input × Input)) :=
  right (match_literal ['<']) (pair identifier attributes)

/-- A parser consumes when every success leaves a strictly shorter
remainder. -/
def Consuming (p : Parser α) : Prop :=
  ∀ input next v, p input = Except.ok (next, v) → next.length < input.length

/-- The accumulation loop on `p` starting from `input` never exits: the
Rust `one_or_more` / `zero_or_more` invocation does not terminate. -/
def Diverges (p : Parser α) (input : Input) : Prop :=
  ∀ fuel, loopRun p fuel input = none

/-- `RunsTo p i vs rem`: from `i`, the successive applications of `p`
succeed exactly with the values `vs`, ending at `rem`. -/
def RunsTo (p : Parser α) : Input → List α → Input → Prop
  | i, [], rem => rem = i
  | i, v :: vs, rem => ∃ next, p i = Except.ok (next, v) ∧ RunsTo p next vs rem

/-- The spec's §3 invariant for a parser: the remainder of a success, and
the input carried by a failure, are suffixes of the input passed in. -/
def SuffixOK (p : Parser α) : Prop :=
  ∀ input,
    (∀ rem v, p input = Except.ok (rem, v) → rem <:+ input) ∧
    (∀ e, p input = Except.error e → e <:+ input)

/-! ### Basic lemmas about the combinators -/

lemma pair_error_left (p1 : Parser α) (p2 : Parser β) (i e : Input)
    (h : p1 i = Except.error e) : pair p1 p2 i = Except.error e := by
  simp [pair, h]

lemma pair_error_right (p1 : Parser α) (p2 : Parser β) (i next e : Input) (r1 : α)
    (h1 : p1 i = Except.ok (next, r1)) (h2 : p2 next = Except.error e) :
    pair p1 p2 i = Except.error e := by
  simp [pair, h1, h2]

lemma pair_ok (p1 : Parser α) (p2 : Parser β) (i next last : Input) (r1 : α) (r2 : β)
    (h1 : p1 i = Except.ok (next, r1)) (h2 : p2 next = Except.ok (last, r2)) :
    pair p1 p2 i = Except.ok (last, (r1, r2)) := by
  simp [pair, h1, h2]

lemma pred_of_error (p : Parser α) (f : α → Bool) (i e : Input)
    (h : p i = Except.error e) : pred p f i = Except.error i := by
  simp [pred, h]

lemma pred_of_reject (p : Parser α) (f : α → Bool) (i next : Input) (v : α)
    (h : p i = Except.ok (next, v)) (hf : f v = false) :
    pred p f i = Except.error i := by
  simp [pred, h, hf]

lemma pred_of_accept (p : Parser α) (f : α → Bool) (i next : Input) (v : α)
    (h : p i = Except.ok (next, v)) (hf : f v = true) :
    pred p f i = Except.ok (next, v) := by
  simp [pred, h, hf]

lemma pred_error_eq (p : Parser α) (f : α → Bool) (i e : Input)
    (h : pred p f i = Except.error e) : e = i := by
  unfold pred at h
  cases hpi : p i with
  | error e2 => rw [hpi] at h; simp at h; exact h.symm
  | ok a =>
    obtain ⟨next, v⟩ := a
    rw [hpi] at h
    by_cases hf : f v = true
    · simp [hf] at h
    · simp [eq_false_of_ne_true hf] at h; exact h.symm

/-! ### Lemmas about the repetition loop -/

lemma loopRun_first_error (p : Parser α) (n : Nat) (i e : Input)
    (h : p i = Except.error e) : loopRun p (n + 1) i = some (i, []) := by
  simp [loopRun, h]

lemma loopRun_first_ok (p : Parser α) (n : Nat) (i next : Input) (v : α)
    (h : p i = Except.ok (next, v)) :
    loopRun p (n + 1) i =
      match loopRun p n next with
      | none => none
      | some (rem, vs) => some (rem, v :: vs) := by
  simp [loopRun, h]

/-- When the iterated parser consumes on every success, the loop exits
within `input.length + 1` iterations. -/
lemma loopRun_isSome_of_consuming (p : Parser α) (hp : Consuming p) :
    ∀ n i, i.length < n → (loopRun p n i).isSome := by
  intro n
  induction n with
  | zero => intro i hi; exact absurd hi (Nat.not_lt_zero _)
  | succ n ih =>
    intro i hi
    cases hpi : p i with
    | error e => simp [loopRun, hpi]
    | ok a =>
      obtain ⟨next, v⟩ := a
      have hnext : next.length < n :=
        Nat.lt_of_lt_of_le (hp i next v hpi) (Nat.lt_succ_iff.mp hi)
      have hsome := ih next hnext
      rw [loopRun_first_ok p n i next v hpi]
      cases hl : loopRun p n next with
      | none => rw [hl] at hsome; simp at hsome
      | some r => obtain ⟨rem, vs⟩ := r; simp

/-- A terminated loop is the chain of all consecutive successes of `p`,
stopped exactly at the first input where `p` fails. -/
lemma loopRun_sound (p : Parser α) :
    ∀ n i rem vs, loopRun p n i = some (rem, vs) →
      RunsTo p i vs rem ∧ ∃ e, p rem = Except.error e := by
  intro n
  induction n with
  | zero => intro i rem vs h; simp [loopRun] at h
  | succ n ih =>
    intro i rem vs h
    cases hpi : p i with
    | error e =>
      rw [loopRun_first_error p n i e hpi] at h
      simp at h
      obtain ⟨h1, h2⟩ := h
      subst h1; subst h2
      exact ⟨rfl, e, hpi⟩
    | ok a =>
      obtain ⟨next, v⟩ := a
      rw [loopRun_first_ok p n i next v hpi] at h
      cases hl : loopRun p n next with
      | none => rw [hl] at h; simp at h
      | some r =>
        obtain ⟨rem2, vs2⟩ := r
        rw [hl] at h
        simp at h
        obtain ⟨h1, h2⟩ := h
        subst h1; subst h2
        obtain ⟨hruns, hfail⟩ := ih next rem2 vs2 hl
        exact ⟨⟨next, hpi, hruns⟩, hfail⟩

/-- If every success of `p` leaves a suffix, so does an exited loop. -/
lemma loopRun_suffix (p : Parser α)
    (hp : ∀ i rem v, p i = Except.ok (rem, v) → rem <:+ i) :
    ∀ n i rem vs, loopRun p n i = some (rem, vs) → rem <:+ i := by
  intro n
  induction n with
  | zero => intro i rem vs h; simp [loopRun] at h
  | succ n ih =>
    intro i rem vs h
    cases hpi : p i with
    | error e =>
      rw [loopRun_first_error p n i e hpi] at h
      simp at h
      rw [← h.1]
    | ok a =>
      obtain ⟨next, v⟩ := a
      rw [loopRun_first_ok p n i next v hpi] at h
      cases hl : loopRun p n next with
      | none => rw [hl] at h; simp at h
      | some r =>
        obtain ⟨rem2, vs2⟩ := r
        rw [hl] at h
        simp at h
        rw [← h.1]
        exact (ih next rem2 vs2 hl).trans (hp i next v hpi)

/-- With zero successes (a sub-parser failure on the very first try) the
repetition loop yields the empty sequence and the untouched input. -/
lemma zero_or_more_first_error (p : Parser α) (i e : Input)
    (h : p i = Except.error e) : zero_or_more p i = Except.ok (i, []) := by
  unfold zero_or_more
  rw [loopRun_first_error p i.length i e h]

lemma zero_or_more_of_consuming (p : Parser α) (hp : Consuming p) (i : Input) :
    ∃ rem vs, zero_or_more p i = Except.ok (rem, vs) := by
  have h := loopRun_isSome_of_consuming p hp (i.length + 1) i (Nat.lt_succ_self _)
  unfold zero_or_more
  cases hl : loopRun p (i.length + 1) i with
  | none => rw [hl] at h; simp at h
  | some r => obtain ⟨rem, vs⟩ := r; exact ⟨rem, vs, rfl⟩

lemma zero_or_more_of_loopRun (p : Parser α) (i rem : Input) (vs : List α)
    (hl : loopRun p (i.length + 1) i = some (rem, vs)) :
    zero_or_more p i = Except.ok (rem, vs) := by
  simp [zero_or_more, hl]

lemma zero_or_more_of_stuck (p : Parser α) (i : Input)
    (hl : loopRun p (i.length + 1) i = none) :
    zero_or_more p i = Except.error i := by
  simp [zero_or_more, hl]

lemma one_or_more_first_error (p : Parser α) (i e : Input)
    (h : p i = Except.error e) : one_or_more p i = Except.error i := by
  simp [one_or_more, h]

lemma one_or_more_of_loopRun (p : Parser α) (i next rem : Input) (first : α) (rest : List α)
    (h1 : p i = Except.ok (next, first))
    (hl : loopRun p (next.length + 1) next = some (rem, rest)) :
    one_or_more p i = Except.ok (rem, first :: rest) := by
  simp [one_or_more, h1, hl]

lemma one_or_more_of_stuck (p : Parser α) (i next : Input) (first : α)
    (h1 : p i = Except.ok (next, first))
    (hl : loopRun p (next.length + 1) next = none) :
    one_or_more p i = Except.error i := by
  simp [one_or_more, h1, hl]

lemma match_literal_consuming (e : Input) (he : e ≠ []) :
    Consuming (match_literal e) := by
  intro input next v h
  unfold match_literal at h
  by_cases hp : input.take e.length = e
  · simp [hp] at h
    have hle : e.length ≤ input.length := by
      have := congrArg List.length hp
      simp at this
      omega
    have hpos : 0 < e.length := List.length_pos.mpr he
    rw [← h]
    simp
    omega
  · simp [hp] at h

/-! ### The suffix invariant (spec section 3) -/

lemma suffixOK_match_literal (e : Input) : SuffixOK (match_literal e) := by
  intro input
  unfold match_literal
  by_cases hp : input.take e.length = e
  · constructor
    · intro rem v h
      simp [hp] at h
      rw [← h]
      exact List.drop_suffix _ _
    · intro e2 h
      simp [hp] at h
  · constructor
    · intro rem v h
      simp [hp] at h
    · intro e2 h
      simp [hp] at h
      rw [h]

lemma suffixOK_identifier : SuffixOK identifier := by
  intro input
  cases input with
  | nil =>
    constructor
    · intro rem v h; simp [identifier] at h
    · intro e h; simp [identifier] at h; rw [h]
  | cons c cs =>
    by_cases hc : c.isAlpha = true
    · constructor
      · intro rem v h
        simp [identifier, hc] at h
        rw [← h.1]
        exact (List.drop_suffix _ _).trans (List.suffix_cons c cs)
      · intro e h
        simp [identifier, hc] at h
    · constructor
      · intro rem v h
        simp [identifier, hc] at h
      · intro e h
        simp [identifier, hc] at h
        rw [h]

lemma suffixOK_any_char : SuffixOK any_char := by
  intro input
  cases input with
  | nil =>
    constructor
    · intro rem v h; simp [any_char] at h
    · intro e h; simp [any_char] at h; rw [h]
  | cons c cs =>
    constructor
    · intro rem v h
      simp [any_char] at h
      rw [← h.1]
      exact List.suffix_cons c cs
    · intro e h; simp [any_char] at h

lemma suffixOK_map (p : Parser α) (f : α → β) (hp : SuffixOK p) :
    SuffixOK (map p f) := by
  intro input
  constructor
  · intro rem v h
    unfold map at h
    cases hpi : p input with
    | error e => rw [hpi] at h; simp at h
    | ok a =>
      obtain ⟨next, r⟩ := a
      rw [hpi] at h
      simp at h
      rw [← h.1]
      exact (hp input).1 next r hpi
  · intro e h
    unfold map at h
    cases hpi : p input with
    | error e2 =>
      rw [hpi] at h
      simp at h
      rw [← h]
      exact (hp input).2 e2 hpi
    | ok a => obtain ⟨next, r⟩ := a; rw [hpi] at h; simp at h

lemma suffixOK_pair (p1 : Parser α) (p2 : Parser β)
    (h1 : SuffixOK p1) (h2 : SuffixOK p2) : SuffixOK (pair p1 p2) := by
  intro input
  constructor
  · intro rem v h
    cases hp1 : p1 input with
    | error e => rw [pair_error_left p1 p2 input e hp1] at h; simp at h
    | ok a =>
      obtain ⟨next, r1⟩ := a
      cases hp2 : p2 next with
      | error e => rw [pair_error_right p1 p2 input next e r1 hp1 hp2] at h; simp at h
      | ok b =>
        obtain ⟨last, r2⟩ := b
        rw [pair_ok p1 p2 input next last r1 r2 hp1 hp2] at h
        simp at h
        rw [← h.1]
        exact ((h2 next).1 last r2 hp2).trans ((h1 input).1 next r1 hp1)
  · intro e h
    cases hp1 : p1 input with
    | error e2 =>
      rw [pair_error_left p1 p2 input e2 hp1] at h
      simp at h
      rw [← h]
      exact (h1 input).2 e2 hp1
    | ok a =>
      obtain ⟨next, r1⟩ := a
      cases hp2 : p2 next with
      | error e2 =>
        rw [pair_error_right p1 p2 input next e2 r1 hp1 hp2] at h
        simp at h
        rw [← h]
        exact ((h2 next).2 e2 hp2).trans ((h1 input).1 next r1 hp1)
      | ok b =>
        obtain ⟨last, r2⟩ := b
        rw [pair_ok p1 p2 input next last r1 r2 hp1 hp2] at h
        simp at h

lemma suffixOK_left (p1 : Parser α) (p2 : Parser β)
    (h1 : SuffixOK p1) (h2 : SuffixOK p2) : SuffixOK (left p1 p2) :=
  suffixOK_map _ _ (suffixOK_pair p1 p2 h1 h2)

lemma suffixOK_right (p1 : Parser α) (p2 : Parser β)
    (h1 : SuffixOK p1) (h2 : SuffixOK p2) : SuffixOK (right p1 p2) :=
  suffixOK_map _ _ (suffixOK_pair p1 p2 h1 h2)

lemma suffixOK_pred (p : Parser α) (f : α → Bool) (hp : SuffixOK p) :
    SuffixOK (pred p f) := by
  intro input
  constructor
  · intro rem v h
    unfold pred at h
    cases hpi : p input with
    | error e => rw [hpi] at h; simp at h
    | ok a =>
      obtain ⟨next, v2⟩ := a
      rw [hpi] at h
      by_cases hf : f v2 = true
      · simp [hf] at h
        rw [← h.1]
        exact (hp input).1 next v2 hpi
      · simp [eq_false_of_ne_true hf] at h
  · intro e h
    have := pred_error_eq p f input e h
    rw [this]

lemma suffixOK_zero_or_more (p : Parser α) (hp : SuffixOK p) :
    SuffixOK (zero_or_more p) := by
  intro input
  constructor
  · intro rem v h
    unfold zero_or_more at h
    cases hl : loopRun p (input.length + 1) input with
    | none => rw [hl] at h; simp at h
    | some r =>
      obtain ⟨rem2, vs⟩ := r
      rw [hl] at h
      simp at h
      rw [← h.1]
      exact loopRun_suffix p (fun i rem v hi => (hp i).1 rem v hi) _ input rem2 vs hl
  · intro e h
    unfold zero_or_more at h
    cases hl : loopRun p (input.length + 1) input with
    | none => rw [hl] at h; simp at h; rw [h]
    | some r => obtain ⟨rem2, vs⟩ := r; rw [hl] at h; simp at h

lemma suffixOK_one_or_more (p : Parser α) (hp : SuffixOK p) :
    SuffixOK (one_or_more p) := by
  intro input
  constructor
  · intro rem v h
    cases hpi : p input with
    | error e => rw [one_or_more_first_error p input e hpi] at h; simp at h
    | ok a =>
      obtain ⟨next, first⟩ := a
      cases hl : loopRun p (next.length + 1) next with
      | none => rw [one_or_more_of_stuck p input next first hpi hl] at h; simp at h
      | some r =>
        obtain ⟨rem2, vs⟩ := r
        rw [one_or_more_of_loopRun p input next rem2 first vs hpi hl] at h
        simp at h
        rw [← h.1]
        exact (loopRun_suffix p (fun i rem v hi => (hp i).1 rem v hi) _ next rem2 vs hl).trans
          ((hp input).1 next first hpi)
  · intro e h
    cases hpi : p input with
    | error e2 =>
      rw [one_or_more_first_error p input e2 hpi] at h
      simp at h
      rw [h]
    | ok a =>
      obtain ⟨next, first⟩ := a
      cases hl : loopRun p (next.length + 1) next with
      | none =>
        rw [one_or_more_of_stuck p input next first hpi hl] at h
        simp at h
        rw [h]
      | some r =>
        obtain ⟨rem2, vs⟩ := r
        rw [one_or_more_of_loopRun p input next rem2 first vs hpi hl] at h
        simp at h

lemma map_error (p : Parser α) (f : α → β) (i e : Input)
    (h : p i = Except.error e) : map p f i = Except.error e := by
  simp [map, h]

lemma map_ok (p : Parser α) (f : α → β) (i next : Input) (r : α)
    (h : p i = Except.ok (next, r)) : map p f i = Except.ok (next, f r) := by
  simp [map, h]

/-- A parser that succeeds on `i` without consuming anything makes the
repetition loop run forever from `i`. -/
lemma diverges_of_fixpoint (p : Parser α) (i : Input) (v : α)
    (h : p i = Except.ok (i, v)) : Diverges p i := by
  intro fuel
  induction fuel with
  | zero => rfl
  | succ n ih => rw [loopRun_first_ok p n i i v h, ih]

/-! ### takeWhile / dropWhile helpers -/

lemma dropWhile_head_false (f : Char → Bool) :
    ∀ (l : Input) (d : Char) (ds : Input), l.dropWhile f = d :: ds → f d = false := by
  intro l
  induction l with
  | nil => intro d ds h; simp [List.dropWhile] at h
  | cons c cs ih =>
    intro d ds h
    by_cases hc : f c = true
    · rw [List.dropWhile_cons] at h
      simp [hc] at h
      exact ih d ds h
    · rw [List.dropWhile_cons] at h
      simp [hc] at h
      rw [← h.1]
      exact eq_false_of_ne_true hc

lemma takeWhile_all_append (f : Char → Bool) :
    ∀ (l r : Input), (∀ d, d ∈ l → f d = true) →
      (l ++ r).takeWhile f = l ++ r.takeWhile f := by
  intro l
  induction l with
  | nil => intro r _; simp
  | cons c cs ih =>
    intro r hall
    have hc : f c = true := hall c (List.mem_cons_self c cs)
    rw [List.cons_append, List.takeWhile_cons]
    simp only [hc, if_true]
    rw [ih r (fun d hd => hall d (List.mem_cons_of_mem c hd))]
    rfl

lemma takeWhile_eq_nil_of_head (f : Char → Bool) (rem : Input)
    (h : ∀ d ds, rem = d :: ds → f d = false) : rem.takeWhile f = [] := by
  cases rem with
  | nil => rfl
  | cons d ds =>
    rw [List.takeWhile_cons]
    simp [h d ds rfl]

lemma drop_length_takeWhile (f : Char → Bool) (l : Input) :
    l.drop (l.takeWhile f).length = l.dropWhile f := by
  induction l with
  | nil => rfl
  | cons c cs ih =>
    rw [List.takeWhile_cons, List.dropWhile_cons]
    by_cases hc : f c = true
    · simp only [hc, if_true, List.length_cons, List.drop_succ_cons, ih]
    · simp only [hc, if_false, Bool.false_eq_true, List.length_nil, List.drop_zero]

lemma suffixOK_whitespace_char : SuffixOK whitespace_char :=
  suffixOK_pred _ _ suffixOK_any_char

lemma suffixOK_one_or_more_space : SuffixOK one_or_more_space :=
  suffixOK_one_or_more _ suffixOK_whitespace_char

lemma suffixOK_zero_or_more_space : SuffixOK zero_or_more_space :=
  suffixOK_zero_or_more _ suffixOK_whitespace_char

lemma suffixOK_quoted_string : SuffixOK quoted_string :=
  suffixOK_map _ _
    (suffixOK_right _ _ (suffixOK_match_literal _)
      (suffixOK_left _ _
        (suffixOK_zero_or_more _ (suffixOK_pred _ _ suffixOK_any_char))
        (suffixOK_match_literal _)))

lemma suffixOK_attribute_pair : SuffixOK attribute_pair :=
  suffixOK_pair _ _ suffixOK_identifier
    (suffixOK_right _ _ (suffixOK_match_literal _) suffixOK_quoted_string)

lemma suffixOK_attributes : SuffixOK attributes :=
  suffixOK_zero_or_more _
    (suffixOK_right _ _ suffixOK_one_or_more_space suffixOK_attribute_pair)

lemma suffixOK_element_start : SuffixOK element_start :=
  suffixOK_right _ _ (suffixOK_match_literal _)
    (suffixOK_pair _ _ suffixOK_identifier suffixOK_attributes)

example : identifier ("i-am".toList) = Except.ok ([], "i-am".toList) := rfl
example : identifier ("!no".toList) = Except.error ("!no".toList) := rfl
example : match_literal ("ha".toList) ("hah".toList) = Except.ok (['h'], ()) := rfl
example : one_or_more (match_literal ("ha".toList)) ("hahaha".toList)
    = Except.ok ([], [(), (), ()]) := rfl
example : zero_or_more (match_literal ("ha".toList)) ("ahah".toList)
    = Except.ok ("ahah".toList, []) := rfl
example : quoted_string ("\"Hello Joe!\"".toList) = Except.ok ([], "Hello Joe!".toList) := rfl
example : attributes (" one=\"1\" two=\"2\"".toList)
    = Except.ok ([], [("one".toList, "1".toList), ("two".toList, "2".toList)]) := rfl
example : element_start ("<div/>".toList) = Except.ok ("/>".toList, ("div".toList, [])) := rfl

/-! ### The claims -/

/-- C1, counterexample: the claim says every parser built from the
library's combinators terminates, naming `zero_or_more(q)` for any
library-built `q`.  Take `q = zero_or_more(match_literal("x"))`, built
from two library combinators: `q` succeeds on `"a"` consuming nothing, so
the `zero_or_more(q)` while-loop applied to `"a"` never exits — for every
iteration bound the fuel-indexed loop semantics still has not returned
(in the Rust code, `parse` never returns on this input). -/
theorem zero_or_more_nested_diverges :
    zero_or_more (match_literal ['x']) ['a'] = Except.ok (['a'], []) ∧
    Diverges (zero_or_more (match_literal ['x'])) ['a'] :=
  ⟨rfl, diverges_of_fixpoint _ _ [] rfl⟩

/-- C1, amended: every combinator of the library terminates in time
bounded by the input length provided that each sub-parser iterated by
`one_or_more`/`zero_or_more` consumes at least one character on every
success: the repetition loop then exits within `length + 1` iterations
(both for `zero_or_more`, fuelled by the input length, and for the loop
`one_or_more` runs on the remainder of its first application).  The
non-repeating combinators are single applications of their sub-parsers
and need no bound. -/
theorem repetition_terminates_of_consuming (p : Parser α) (hp : Consuming p) (i : Input) :
    (loopRun p (i.length + 1) i).isSome ∧
    (∃ rem vs, zero_or_more p i = Except.ok (rem, vs)) ∧
    (∀ next v, p i = Except.ok (next, v) → (loopRun p (next.length + 1) next).isSome) :=
  ⟨loopRun_isSome_of_consuming p hp _ i (Nat.lt_succ_self _),
   zero_or_more_of_consuming p hp i,
   fun next _ _ => loopRun_isSome_of_consuming p hp _ next (Nat.lt_succ_self _)⟩

/-- C1 witness: the bound instantiated at `match_literal("x")` (which
consumes one character per success) on the input `"xx"`. -/
theorem repetition_terminates_witness :
    (loopRun (match_literal ['x']) 3 ['x', 'x']).isSome :=
  (repetition_terminates_of_consuming (match_literal ['x'])
    (match_literal_consuming ['x'] (by decide)) ['x', 'x']).1

/-- C2: `pair(p1, p2)` propagates a failure of `p1` as-is; when `p1`
succeeds and `p2` then fails on the remainder, `pair` fails with `p2`'s
failure value — the input after `p1`'s consumption, not `pair`'s original
input (no backtracking).  In particular `pair(match_literal("<"),
identifier)` applied to `"<!oops"` fails with remainder `"!oops"`. -/
theorem pair_propagates_failures (p1 : Parser α) (p2 : Parser β) (i : Input) :
    (∀ e, p1 i = Except.error e → pair p1 p2 i = Except.error e) ∧
    (∀ next r1 e, p1 i = Except.ok (next, r1) → p2 next = Except.error e →
      pair p1 p2 i = Except.error e) ∧
    pair (match_literal ['<']) identifier ("<!oops".toList) =
      Except.error ("!oops".toList) :=
  ⟨fun e h => pair_error_left p1 p2 i e h,
   fun next r1 e h1 h2 => pair_error_right p1 p2 i next e r1 h1 h2,
   rfl⟩

/-- C2 witness: the failure-propagation cases instantiated at
`pair(match_literal("<"), identifier)` on `"<1a"` (second parser fails)
and on `"oops"` (first parser fails). -/
theorem pair_propagates_failures_witness :
    pair (match_literal ['<']) identifier ("<1a".toList) = Except.error ("1a".toList) ∧
    pair (match_literal ['<']) identifier ("oops".toList) = Except.error ("oops".toList) :=
  ⟨(pair_propagates_failures (match_literal ['<']) identifier ("<1a".toList)).2.1
      ("1a".toList) () ("1a".toList) rfl rfl,
   (pair_propagates_failures (match_literal ['<']) identifier ("oops".toList)).1
      ("oops".toList) rfl⟩

/-- C3: whenever `pred(p, f)` fails — because `p` failed, or because `p`
succeeded with a value `f` rejects — the failure value is exactly the
input `pred` was given (full rollback); when `p` succeeds with an
accepted value, `pred` returns `p`'s value and remainder unchanged. -/
theorem pred_rolls_back (p : Parser α) (f : α → Bool) (i : Input) :
    (∀ e, pred p f i = Except.error e → e = i) ∧
    (∀ e, p i = Except.error e → pred p f i = Except.error i) ∧
    (∀ next v, p i = Except.ok (next, v) → f v = false → pred p f i = Except.error i) ∧
    (∀ next v, p i = Except.ok (next, v) → f v = true → pred p f i = Except.ok (next, v)) :=
  ⟨fun e h => pred_error_eq p f i e h,
   fun e h => pred_of_error p f i e h,
   fun next v h hf => pred_of_reject p f i next v h hf,
   fun next v h hf => pred_of_accept p f i next v h hf⟩

/-- C3 witness: `pred(any_char, . == 'o')` accepts on `"omg"` and rolls
back on `"lol"`, matching the repository's `test_predicate_combinator`. -/
theorem pred_rolls_back_witness :
    pred any_char (fun c => c == 'o') ("omg".toList) = Except.ok ("mg".toList, 'o') ∧
    pred any_char (fun c => c == 'o') ("lol".toList) = Except.error ("lol".toList) :=
  ⟨(pred_rolls_back any_char (fun c => c == 'o') ("omg".toList)).2.2.2
      ("mg".toList) 'o' rfl rfl,
   (pred_rolls_back any_char (fun c => c == 'o') ("lol".toList)).2.2.1
      ("ol".toList) 'l' rfl rfl⟩

/-- C6: `zero_or_more(p)` never fails: with zero successful applications
of `p` (a first-try sub-failure) it succeeds with the empty sequence and
the original input unchanged, for any `p` and any input including the
empty one; whenever the repetition loop exits — always, for a consuming
`p` — the result is a success.  (For a `p` that succeeds without
consuming, the Rust loop never returns at all, so no failure is ever
produced there either; see the C1 analysis.) -/
theorem zero_or_more_never_fails (p : Parser α) (i : Input) :
    (∀ e, p i = Except.error e → zero_or_more p i = Except.ok (i, [])) ∧
    (Consuming p → ∃ rem vs, zero_or_more p i = Except.ok (rem, vs)) ∧
    (∀ rem vs, loopRun p (i.length + 1) i = some (rem, vs) →
      zero_or_more p i = Except.ok (rem, vs)) :=
  ⟨fun e h => zero_or_more_first_error p i e h,
   fun hp => zero_or_more_of_consuming p hp i,
   fun rem vs hl => zero_or_more_of_loopRun p i rem vs hl⟩

/-- C6 witness: zero successes on the empty input and on `"ahah"`,
matching the repository's `test_zero_or_more_combinator`. -/
theorem zero_or_more_never_fails_witness :
    zero_or_more (match_literal ("ha".toList)) [] = Except.ok ([], []) ∧
    zero_or_more (match_literal ("ha".toList)) ("ahah".toList) =
      Except.ok ("ahah".toList, []) :=
  ⟨(zero_or_more_never_fails (match_literal ("ha".toList)) []).1 [] rfl,
   (zero_or_more_never_fails (match_literal ("ha".toList)) ("ahah".toList)).1
      ("ahah".toList) rfl⟩

/-- C8: `match_literal(e)` succeeds — yielding unit and the input with
its first `length e` scalar values removed — exactly when the input
starts with `e`; in every other case it fails returning the input
unchanged. -/
theorem match_literal_iff_starts_with (e i : Input) :
    (e <+: i → match_literal e i = Except.ok (i.drop e.length, ())) ∧
    (¬ e <+: i → match_literal e i = Except.error i) := by
  constructor
  · intro h
    have ht : i.take e.length = e := (List.prefix_iff_eq_take.mp h).symm
    simp [match_literal, ht]
  · intro h
    have ht : ¬ i.take e.length = e := fun hc => h (List.prefix_iff_eq_take.mpr hc.symm)
    simp [match_literal, ht]

/-- C8 witness: both directions at concrete inputs, matching the
repository's `test_literal_parser`. -/
theorem match_literal_iff_witness :
    match_literal ("ha".toList) ("hah".toList) = Except.ok (['h'], ()) ∧
    match_literal ("ha".toList) ("ah".toList) = Except.error ("ah".toList) :=
  ⟨(match_literal_iff_starts_with ("ha".toList) ("hah".toList)).1 (by decide),
   (match_literal_iff_starts_with ("ha".toList) ("ah".toList)).2 (by decide)⟩

/-- C9: `attributes` is `zero_or_more(right(one_or_more_space,
attribute_pair))` — so each parsed attribute must be preceded by at least
one whitespace character, zero attributes (a first-try failure of the
separated pair, e.g. no leading whitespace) is a successful outcome, and
the scenario ` one="1" two="2"` yields the ordered pair sequence
`[("one","1"), ("two","2")]` with empty remainder. -/
theorem attributes_shape (i : Input) :
    attributes = zero_or_more (right one_or_more_space attribute_pair) ∧
    (∀ e, right one_or_more_space attribute_pair i = Except.error e →
      attributes i = Except.ok (i, [])) ∧
    attributes (" one=\"1\" two=\"2\"".toList) =
      Except.ok ([], [("one".toList, "1".toList), ("two".toList, "2".toList)]) :=
  ⟨rfl, fun e h => zero_or_more_first_error _ i e h, rfl⟩

/-- C9 witness: zero attributes on an input with no leading whitespace. -/
theorem attributes_shape_witness :
    attributes ("x".toList) = Except.ok ("x".toList, []) :=
  (attributes_shape ("x".toList)).2.1 ("x".toList) rfl

/-- C4: the spec's result invariant, for every parser of the library: on
success the remaining input is a suffix of the input passed in, and on
failure the returned input is a suffix of (or equal to) the input of the
invocation — established for each primitive and each concrete grammar
parser, and preserved by every combinator. -/
theorem parse_suffix_invariant (e : Input) :
    SuffixOK any_char ∧
    SuffixOK (match_literal e) ∧
    SuffixOK identifier ∧
    SuffixOK whitespace_char ∧
    SuffixOK one_or_more_space ∧
    SuffixOK zero_or_more_space ∧
    SuffixOK quoted_string ∧
    SuffixOK attribute_pair ∧
    SuffixOK attributes ∧
    SuffixOK element_start ∧
    (∀ (α β : Type) (p : Parser α) (f : α → β), SuffixOK p → SuffixOK (map p f)) ∧
    (∀ (α β : Type) (p1 : Parser α) (p2 : Parser β),
      SuffixOK p1 → SuffixOK p2 → SuffixOK (pair p1 p2)) ∧
    (∀ (α β : Type) (p1 : Parser α) (p2 : Parser β),
      SuffixOK p1 → SuffixOK p2 → SuffixOK (left p1 p2)) ∧
    (∀ (α β : Type) (p1 : Parser α) (p2 : Parser β),
      SuffixOK p1 → SuffixOK p2 → SuffixOK (right p1 p2)) ∧
    (∀ (α : Type) (p : Parser α) (f : α → Bool), SuffixOK p → SuffixOK (pred p f)) ∧
    (∀ (α : Type) (p : Parser α), SuffixOK p → SuffixOK (zero_or_more p)) ∧
    (∀ (α : Type) (p : Parser α), SuffixOK p → SuffixOK (one_or_more p)) :=
  ⟨suffixOK_any_char, suffixOK_match_literal e, suffixOK_identifier,
   suffixOK_whitespace_char, suffixOK_one_or_more_space, suffixOK_zero_or_more_space,
   suffixOK_quoted_string, suffixOK_attribute_pair, suffixOK_attributes,
   suffixOK_element_start,
   fun _ _ p f hp => suffixOK_map p f hp,
   fun _ _ p1 p2 h1 h2 => suffixOK_pair p1 p2 h1 h2,
   fun _ _ p1 p2 h1 h2 => suffixOK_left p1 p2 h1 h2,
   fun _ _ p1 p2 h1 h2 => suffixOK_right p1 p2 h1 h2,
   fun _ p f hp => suffixOK_pred p f hp,
   fun _ p hp => suffixOK_zero_or_more p hp,
   fun _ p hp => suffixOK_one_or_more p hp⟩

/-- C4 witness: the invariant read off at `element_start` on `"<div/>"`,
whose successful remainder `"/>"` is a suffix of the input. -/
theorem parse_suffix_invariant_witness :
    ("/>".toList) <:+ ("<div/>".toList) :=
  ((parse_suffix_invariant []).2.2.2.2.2.2.2.2.2.1 ("<div/>".toList)).1
    ("/>".toList) ("div".toList, []) rfl

/-- C5, counterexample: the claim quantifies over every parser `p`; take
`p = zero_or_more(match_literal("x"))`, built from the library's
combinators.  On the empty input `p` succeeds (consuming nothing), so the
claim asserts `one_or_more(p)` succeeds there — but after the first
application succeeds with remainder `[]`, the accumulation loop
`one_or_more` enters never exits (no fuel bound makes the fuel-indexed
loop semantics return), i.e. the Rust `one_or_more(p).parse("")` never
returns, and in particular does not succeed. -/
theorem one_or_more_nested_diverges :
    zero_or_more (match_literal ['x']) [] = Except.ok ([], []) ∧
    Diverges (zero_or_more (match_literal ['x'])) [] :=
  ⟨rfl, diverges_of_fixpoint _ _ [] rfl⟩

/-- C5, amended: restricted to invocations whose repetition loop
terminates (all consuming sub-parsers; not the nested repetition of the
counterexample): `one_or_more(p)` fails iff `p` fails at the start of
`i`, and then its failure value is `i` itself, the input at the very
start of the call; on success its output sequence is exactly the chain of
consecutive successful applications of `p` (`RunsTo`), stopped at the
first remainder on which `p` fails, and that remainder is returned. -/
theorem one_or_more_repetition (p : Parser α) (i : Input) :
    (∀ e, p i = Except.error e → one_or_more p i = Except.error i) ∧
    (∀ next v rem vs, p i = Except.ok (next, v) →
      loopRun p (next.length + 1) next = some (rem, vs) →
      one_or_more p i = Except.ok (rem, v :: vs) ∧
      RunsTo p i (v :: vs) rem ∧
      ∃ e, p rem = Except.error e) := by
  constructor
  · exact fun e h => one_or_more_first_error p i e h
  · intro next v rem vs h1 hl
    obtain ⟨hruns, hfail⟩ := loopRun_sound p (next.length + 1) next rem vs hl
    exact ⟨one_or_more_of_loopRun p i next rem v vs h1 hl, ⟨next, h1, hruns⟩, hfail⟩

/-- C5 witness: `one_or_more(match_literal("ha"))` on `"hahaha"` (three
chained successes, empty remainder) and on the empty input (immediate
failure returning the original input), matching the repository's
`test_one_or_more_combinator`. -/
theorem one_or_more_repetition_witness :
    one_or_more (match_literal ("ha".toList)) ("hahaha".toList) =
      Except.ok ([], [(), (), ()]) ∧
    RunsTo (match_literal ("ha".toList)) ("hahaha".toList) [(), (), ()] [] ∧
    one_or_more (match_literal ("ha".toList)) [] = Except.error [] :=
  have h := (one_or_more_repetition (match_literal ("ha".toList)) ("hahaha".toList)).2
    ("haha".toList) () [] [(), ()] rfl rfl
  ⟨h.1, h.2.1, (one_or_more_repetition (match_literal ("ha".toList)) []).1 [] rfl⟩

/-- C7: `identifier` fails returning the input unchanged whenever the
first scalar value is missing (empty input) or not alphabetic; on an
alphabetic first character it succeeds with the maximal leading run — the
first character followed by the characters `t` all alphanumeric-or-hyphen
— and the remainder `rem` is exactly the rest of the input, whose first
character (when present) is disqualifying. -/
theorem identifier_greedy (i : Input) :
    (i = [] → identifier i = Except.error i) ∧
    (∀ c cs, i = c :: cs → c.isAlpha = false → identifier i = Except.error i) ∧
    (∀ c cs, i = c :: cs → c.isAlpha = true →
      ∃ t rem, identifier i = Except.ok (rem, c :: t) ∧
        i = c :: (t ++ rem) ∧
        (∀ d, d ∈ t → identChar d = true) ∧
        (∀ d ds, rem = d :: ds → identChar d = false)) := by
  refine ⟨?_, ?_, ?_⟩
  · intro h; subst h; rfl
  · intro c cs h hc; subst h; simp [identifier, hc]
  · intro c cs h hc
    subst h
    refine ⟨cs.takeWhile identChar, cs.dropWhile identChar, ?_, ?_, ?_, ?_⟩
    · simp only [identifier, hc, if_true]
      rw [drop_length_takeWhile]
    · rw [List.takeWhile_append_dropWhile]
    · intro d hd; exact List.mem_takeWhile_imp hd
    · intro d ds hd; exact dropWhile_head_false identChar cs d ds hd

/-- C7 witness: a non-alphabetic first character (`"!x"`) and an
alphabetic one (`"a-b c"`, stopping at the space). -/
theorem identifier_greedy_witness :
    identifier ("!x".toList) = Except.error ("!x".toList) ∧
    (∃ t rem, identifier ("a-b c".toList) = Except.ok (rem, 'a' :: t) ∧
      "a-b c".toList = 'a' :: (t ++ rem) ∧
      (∀ d, d ∈ t → identChar d = true) ∧
      (∀ d ds, rem = d :: ds → identChar d = false)) :=
  ⟨(identifier_greedy ("!x".toList)).2.1 '!' ("x".toList) rfl rfl,
   (identifier_greedy ("a-b c".toList)).2.2 'a' ("-b c".toList) rfl rfl⟩

/-- C10: `element_start` on `"<"`, a valid identifier (alphabetic first
character `c`, then identifier characters `cs`, maximal: the remainder's
first character, if any, is not an identifier character) and a remainder
whose first character is not whitespace, succeeds with the identifier as
the name, the empty attribute list, and that remainder unconsumed —
because `attributes` never fails and parses zero attributes when no
whitespace follows the name. -/
theorem element_start_no_attributes (c : Char) (cs rem : Input)
    (hc : c.isAlpha = true)
    (hcs : ∀ d, d ∈ cs → identChar d = true)
    (hrem : ∀ d ds, rem = d :: ds → identChar d = false ∧ d.isWhitespace = false) :
    element_start ('<' :: ((c :: cs) ++ rem)) = Except.ok (rem, (c :: cs, [])) := by
  have hident : identifier ((c :: cs) ++ rem) = Except.ok (rem, c :: cs) := by
    show identifier (c :: (cs ++ rem)) = _
    simp only [identifier, hc, if_true]
    rw [takeWhile_all_append identChar cs rem hcs,
        takeWhile_eq_nil_of_head identChar rem (fun d ds hd => (hrem d ds hd).1)]
    simp only [List.append_nil]
    rw [List.drop_left]
  have hws : whitespace_char rem = Except.error rem := by
    cases hr : rem with
    | nil => rfl
    | cons d ds =>
      exact pred_of_reject any_char _ (d :: ds) ds d rfl (hrem d ds hr).2
  have hsep : right one_or_more_space attribute_pair rem = Except.error rem := by
    have h1 : one_or_more_space rem = Except.error rem :=
      one_or_more_first_error whitespace_char rem rem hws
    exact map_error _ _ rem rem (pair_error_left one_or_more_space attribute_pair rem rem h1)
  have hattrs : attributes rem = Except.ok (rem, []) :=
    zero_or_more_first_error _ rem rem hsep
  have hpair : pair identifier attributes ((c :: cs) ++ rem) =
      Except.ok (rem, (c :: cs, [])) :=
    pair_ok identifier attributes _ rem rem (c :: cs) [] hident hattrs
  have hlt : match_literal ['<'] ('<' :: ((c :: cs) ++ rem)) =
      Except.ok ((c :: cs) ++ rem, ()) := rfl
  exact map_ok _ _ _ rem ((), (c :: cs, []))
    (pair_ok (match_literal ['<']) (pair identifier attributes) _ _ rem () (c :: cs, [])
      hlt hpair)

/-- C10 witness: `element_start` applied to `"<div/>"` succeeds with name
`"div"`, no attributes, and remainder `"/>"`. -/
theorem element_start_no_attributes_witness :
    element_start ['<', 'd', 'i', 'v', '/', '>'] =
      Except.ok (['/', '>'], (['d', 'i', 'v'], [])) :=
  element_start_no_attributes 'd' ['i', 'v'] ['/', '>'] rfl (by decide)
    (by
      intro d ds h
      injection h with h1 h2
      subst h1
      exact ⟨rfl, rfl⟩)

end RPC
